import Mathlib

/-!
Verification development for the streaming analytics pipeline
(`src/pipeline.py`).  The Python source is shallowly embedded:

* Python `dict`s (insertion-ordered) become association lists;
* `float` arithmetic is modelled exactly over `ℚ`;
* `round(x, 1)` is modelled as round-half-to-even on rationals;
* the wall clock read inside `StreamProcessor.process` becomes an
  explicit `now : ℚ` argument; `throughput` takes no clock argument,
  exactly as in the source.
-/

/-- One catalog row (section 1 of the source). -/
structure CatalogEntry where
  track_id : String
  title : String
  album : String
  duration_s : Nat
  release_year : Nat
deriving DecidableEq

/-- The fixed `CATALOG` list from the source. -/
def CATALOG : List CatalogEntry :=
  [ { track_id := "jw-001", title := "In My Room", album := "In My Room (Single)", duration_s := 183, release_year := 2024 },
    { track_id := "jw-002", title := "Last Summer", album := "Last Summer (Single)", duration_s := 172, release_year := 2024 },
    { track_id := "jw-003", title := "Kill You Off", album := "PRESSURE", duration_s := 148, release_year := 2025 },
    { track_id := "jw-004", title := "Pearl", album := "PRESSURE", duration_s := 141, release_year := 2025 },
    { track_id := "jw-005", title := "Loser", album := "PRESSURE", duration_s := 167, release_year := 2025 },
    { track_id := "jw-006", title := "Fingernails", album := "PRESSURE", duration_s := 144, release_year := 2025 },
    { track_id := "jw-007", title := "Limewire", album := "PRESSURE", duration_s := 158, release_year := 2025 },
    { track_id := "jw-008", title := "Jennifer\x27s Body", album := "PRESSURE", duration_s := 153, release_year := 2025 },
    { track_id := "jw-009", title := "Sunshine State", album := "PRESSURE", duration_s := 176, release_year := 2025 },
    { track_id := "jw-010", title := "You\x27ve Lost A Lot of Blood", album := "PRESSURE", duration_s := 182, release_year := 2025 } ]

/-- The track identifiers of the catalog, in declaration order. -/
def catalogIds : List String := CATALOG.map (fun t => t.track_id)

/-- `StreamEvent` dataclass (section 2 of the source). -/
structure StreamEvent where
  event_id : String
  track_id : String
  user_id : String
  platform : String
  region : String
  device : String
  timestamp : ℚ
  listened_s : Nat
  completed : Bool
deriving DecidableEq

/-- `d[k] = d.get(k, 0) + 1` on an insertion-ordered dict: update the
existing entry in place, else append `(k, 1)` at the end. -/
def bump : List (String × Nat) → String → List (String × Nat)
  | [], k => [(k, 1)]
  | (k', v) :: rest, k =>
    if k' = k then (k', v + 1) :: rest else (k', v) :: bump rest k

/-- Loop of Python `max(d, key=d.get)`: keep the incumbent unless a later
entry is strictly greater. -/
def maxKeyGo (bk : String) (bv : Nat) : List (String × Nat) → String
  | [] => bk
  | (k, v) :: rest => if bv < v then maxKeyGo k v rest else maxKeyGo bk bv rest

/-- Python `max(d, key=d.get)`: the first key, in insertion order, whose
count attains the maximum.  (`""` on the empty dict; the source never
calls `max` on an empty dict.) -/
def maxKey : List (String × Nat) → String
  | [] => ""
  | (k, v) :: rest => maxKeyGo k v rest

/-- Round a rational to the nearest integer, ties to even (the rule used
by Python `round`). -/
def roundHalfEven (q : ℚ) : ℤ :=
  if q - (⌊q⌋ : ℚ) < 1 / 2 then ⌊q⌋
  else if 1 / 2 < q - (⌊q⌋ : ℚ) then ⌊q⌋ + 1
  else if ⌊q⌋ % 2 = 0 then ⌊q⌋ else ⌊q⌋ + 1

/-- Python `round(q, 1)` over exact rationals. -/
def pyRound1 (q : ℚ) : ℚ := (roundHalfEven (q * 10) : ℚ) / 10

/-- `TrackStats` dataclass.  Fields prefixed `_` in Python lose the
underscore here; `_user_set` becomes a `Finset`. -/
structure TrackStats where
  track_id : String
  title : String
  total_streams : Nat := 0
  unique_users : Nat := 0
  completion_pct : ℚ := 0
  avg_listen_s : ℚ := 0
  top_platform : String := ""
  top_region : String := ""
  user_set : Finset String := ∅
  listen_total : Nat := 0
  completions : Nat := 0
  platform_counts : List (String × Nat) := []
  region_counts : List (String × Nat) := []
deriving DecidableEq

/-- A freshly constructed `TrackStats(track_id, title)`. -/
def TrackStats.fresh (tid title : String) : TrackStats :=
  { track_id := tid, title := title }

/-- `TrackStats.ingest` (lines 78-90 of the source), as a pure state
transformer. -/
def TrackStats.ingest (s : TrackStats) (e : StreamEvent) : TrackStats :=
  let total := s.total_streams + 1
  let uset := insert e.user_id s.user_set
  let lt := s.listen_total + e.listened_s
  let comps := if e.completed then s.completions + 1 else s.completions
  let pc := bump s.platform_counts e.platform
  let rc := bump s.region_counts e.region
  { s with
    total_streams := total
    user_set := uset
    unique_users := uset.card
    listen_total := lt
    avg_listen_s := (lt : ℚ) / (total : ℚ)
    completions := comps
    completion_pct := pyRound1 ((comps : ℚ) / (total : ℚ) * 100)
    platform_counts := pc
    region_counts := rc
    top_platform := maxKey pc
    top_region := maxKey rc }

/-- Fold `ingest` over a list of events (every reachable aggregate state
is such a fold). -/
def ingestAll (s : TrackStats) (evts : List StreamEvent) : TrackStats :=
  evts.foldl TrackStats.ingest s

/-- First-match lookup in the `stats` dict. -/
def lookupTrack : List (String × TrackStats) → String → Option TrackStats
  | [], _ => none
  | (k, s) :: rest, tid => if k = tid then some s else lookupTrack rest tid

/-- `self.stats[tid].ingest(event)`: in-place update of the (unique)
entry with key `tid`, position preserved. -/
def updateStats : List (String × TrackStats) → String → StreamEvent → List (String × TrackStats)
  | [], _, _ => []
  | (k, s) :: rest, tid, e =>
    if k = tid then (k, s.ingest e) :: rest
    else (k, s) :: updateStats rest tid e

/-- `while self._window and self._window[0] < cutoff: popleft()`. -/
def evictFrom : List ℚ → ℚ → List ℚ
  | [], _ => []
  | t :: rest, cutoff => if t < cutoff then evictFrom rest cutoff else t :: rest

/-- `StreamProcessor` state (stats dict in catalog insertion order, the
throughput window, the processed counter and the unused anomaly list). -/
structure StreamProcessor where
  stats : List (String × TrackStats)
  window : List ℚ
  total_processed : Nat
  anomalies : List String
deriving DecidableEq

/-- `WINDOW_SIZE = 60` seconds. -/
def StreamProcessor.WINDOW_SIZE : ℚ := 60

/-- `StreamProcessor.__init__`: one fresh aggregate per catalog entry,
in catalog order; empty window; zero counter. -/
def StreamProcessor.init : StreamProcessor :=
  { stats := CATALOG.map (fun t => (t.track_id, TrackStats.fresh t.track_id t.title))
    window := []
    total_processed := 0
    anomalies := [] }

/-- `StreamProcessor.process` (lines 158-171).  The `time.time()` read
becomes the explicit argument `now`. -/
def StreamProcessor.process (p : StreamProcessor) (now : ℚ) (e : StreamEvent) : StreamProcessor :=
  match lookupTrack p.stats e.track_id with
  | none => p
  | some _ =>
    { p with
      stats := updateStats p.stats e.track_id e
      total_processed := p.total_processed + 1
      window := evictFrom (p.window ++ [now]) (now - StreamProcessor.WINDOW_SIZE) }

/-- `StreamProcessor.throughput` (lines 173-175): `len(window) / 60`,
with no eviction and no clock access. -/
def StreamProcessor.throughput (p : StreamProcessor) : ℚ :=
  (p.window.length : ℚ) / StreamProcessor.WINDOW_SIZE

/-- `StreamProcessor.process_batch`: the `for`-loop over the events. -/
def StreamProcessor.process_batch (p : StreamProcessor) (evts : List (ℚ × StreamEvent)) : StreamProcessor :=
  evts.foldl (fun st ne => st.process ne.1 ne.2) p

/-- Descending comparison on `total_streams`; `sorted(..., reverse=True)`
is the stable sort by this relation. -/
def streamsGE (a b : TrackStats) : Prop := b.total_streams ≤ a.total_streams

instance : DecidableRel streamsGE := fun a b => Nat.decLe b.total_streams a.total_streams

instance : IsTotal TrackStats streamsGE :=
  ⟨fun a b => (Nat.le_total b.total_streams a.total_streams).elim Or.inl Or.inr⟩

instance : IsTrans TrackStats streamsGE :=
  ⟨fun _ _ _ hab hbc => Nat.le_trans hbc hab⟩

/-- `StreamProcessor.top_tracks` (lines 181-186): stable sort of the
stats values by descending stream count, then take `n`. -/
def StreamProcessor.top_tracks (p : StreamProcessor) (n : Nat) : List TrackStats :=
  (List.insertionSort streamsGE (p.stats.map Prod.snd)).take n

/-- Run a sequence of `(now, event)` pairs from the fresh engine. -/
def runEvents (evts : List (ℚ × StreamEvent)) : StreamProcessor :=
  StreamProcessor.init.process_batch evts

/-- Sequential calls to `process`, one event at a time — the behaviour
the spec says `process_batch` is equivalent to. -/
def seqProcess : StreamProcessor → List (ℚ × StreamEvent) → StreamProcessor
  | p, [] => p
  | p, ne :: rest => seqProcess (p.process ne.1 ne.2) rest

/-- Sum of `total_streams` over all aggregates of the engine. -/
def sumStreams (p : StreamProcessor) : Nat :=
  (p.stats.map (fun kv => kv.2.total_streams)).sum

/-- Occurrence count of a value in a list of categorical values. -/
def countVal (v : String) : List String → Nat
  | [] => 0
  | x :: rest => (if x = v then 1 else 0) + countVal v rest

/-- The distinct values of a list, each at its first occurrence, in
order of first occurrence. -/
def firstOccurrences (vals : List String) : List String :=
  vals.foldl (fun acc v => if v ∈ acc then acc else acc ++ [v]) []

/-- The per-value tally dict built by repeated `bump`, starting empty. -/
def tally (vals : List String) : List (String × Nat) :=
  vals.foldl bump []

/-- Loop of `pickFirstMax`: keep the incumbent unless a later key scores
strictly higher. -/
def pickGo (f : String → Nat) (bk : String) : List String → String
  | [] => bk
  | k :: ks => if f bk < f k then pickGo f k ks else pickGo f bk ks

/-- The first key in the list whose `f`-score is maximal. -/
def pickFirstMax (f : String → Nat) : List String → String
  | [] => ""
  | k :: ks => pickGo f k ks

/-- First-seen-wins selection: among the values of maximal occurrence
count, the one whose first occurrence is earliest. -/
def firstSeenMax (vals : List String) : String :=
  pickFirstMax (fun k => countVal k vals) (firstOccurrences vals)

/-- The maximal per-value occurrence count of a list. -/
def maxCount (vals : List String) : Nat :=
  ((firstOccurrences vals).map (fun k => countVal k vals)).foldl max 0

/-- Scan helper for `specFirstToReachMax`: walk the sequence keeping the
already-seen prefix; return the first value whose running count hits `M`. -/
def firstReachGo (M : Nat) : List String → List String → String
  | _, [] => ""
  | seen, v :: rest =>
    if countVal v (seen ++ [v]) = M then v else firstReachGo M (seen ++ [v]) rest

/-- Following the spec words of the claim: the categorical value whose
per-value count first reached the eventual maximum. -/
def specFirstToReachMax (vals : List String) : String :=
  firstReachGo (maxCount vals) [] vals

/-- The derived (exposed) fields are exactly the documented functions of
the internal counters. -/
def derivedOk (a : TrackStats) : Prop :=
  a.completion_pct = pyRound1 ((a.completions : ℚ) / (a.total_streams : ℚ) * 100)
  ∧ a.avg_listen_s = (a.listen_total : ℚ) / (a.total_streams : ℚ)
  ∧ a.unique_users = a.user_set.card
  ∧ a.top_platform = maxKey a.platform_counts
  ∧ a.top_region = maxKey a.region_counts

/-- The accumulation step of `firstOccurrences`. -/
def occStep (acc : List String) (v : String) : List String :=
  if v ∈ acc then acc else acc ++ [v]

/-- Number of events in a `(now, event)` sequence whose `track_id` is in
the key list `ks`. -/
def countKnown (ks : List String) (evts : List (ℚ × StreamEvent)) : Nat :=
  (evts.filter (fun ne => decide (ne.2.track_id ∈ ks))).length

/-- The stats values stably sorted by descending stream count. -/
def sortedStats (p : StreamProcessor) : List TrackStats :=
  List.insertionSort streamsGE (p.stats.map Prod.snd)

/-! ### Concrete inputs used by counterexamples and witnesses -/

def pSpot : String := "Spotify"

def pTidal : String := "Tidal"

def cid1 : String := "jw-001"

def ctitle1 : String := "In My Room"

def regW : String := "US-West"

/-- An event for track jw-001 carrying the given platform value. -/
def platEvent (p : String) : StreamEvent :=
  { event_id := "e", track_id := cid1, user_id := "u1", platform := p,
    region := regW, device := "iPhone", timestamp := 0, listened_s := 120,
    completed := false }

/-- The three events of the spec concrete scenario:
listened 100/150/183, completed false/true/true, distinct users. -/
def scenEv1 : StreamEvent :=
  { event_id := "s1", track_id := cid1, user_id := "u1", platform := pSpot,
    region := regW, device := "iPhone", timestamp := 0, listened_s := 100,
    completed := false }

def scenEv2 : StreamEvent :=
  { event_id := "s2", track_id := cid1, user_id := "u2", platform := pSpot,
    region := regW, device := "iPhone", timestamp := 0, listened_s := 150,
    completed := true }

def scenEv3 : StreamEvent :=
  { event_id := "s3", track_id := cid1, user_id := "u3", platform := pSpot,
    region := regW, device := "iPhone", timestamp := 0, listened_s := 183,
    completed := true }

def scenarioEvents : List StreamEvent := [scenEv1, scenEv2, scenEv3]

/-- One event at time 0 for the throughput counterexample. -/
def evStaleWin : StreamEvent :=
  { event_id := "e0", track_id := cid1, user_id := "u1", platform := pSpot,
    region := regW, device := "iPhone", timestamp := 0, listened_s := 100,
    completed := true }

/-- An event whose track_id is not a catalog key. -/
def evUnknownTrack : StreamEvent :=
  { event_id := "x", track_id := "zz-999", user_id := "u9", platform := pSpot,
    region := regW, device := "Web", timestamp := 5, listened_s := 30,
    completed := false }

/-! ### Per-aggregate invariants -/

lemma pyRound1_zero : pyRound1 0 = 0 := by
  simp [pyRound1, roundHalfEven]
  try norm_num

lemma derivedOk_fresh (tid title : String) : derivedOk (TrackStats.fresh tid title) := by
  refine ⟨?_, ?_, ?_, ?_, ?_⟩ <;>
    simp [TrackStats.fresh, maxKey, pyRound1_zero]

lemma derivedOk_ingest (a : TrackStats) (e : StreamEvent) : derivedOk (a.ingest e) :=
  ⟨rfl, rfl, rfl, rfl, rfl⟩

lemma ingestAll_cons (a : TrackStats) (e : StreamEvent) (evts : List StreamEvent) :
    ingestAll a (e :: evts) = ingestAll (a.ingest e) evts := rfl

lemma derivedOk_ingestAll (evts : List StreamEvent) (a : TrackStats) (h : derivedOk a) :
    derivedOk (ingestAll a evts) := by
  induction evts generalizing a with
  | nil => exact h
  | cons e rest ih => exact ih (a.ingest e) (derivedOk_ingest a e)

lemma ingestAll_total (evts : List StreamEvent) (a : TrackStats) :
    (ingestAll a evts).total_streams = a.total_streams + evts.length := by
  induction evts generalizing a with
  | nil => simp [ingestAll]
  | cons e rest ih =>
    rw [ingestAll_cons, ih]
    simp [TrackStats.ingest]
    try omega

lemma ingestAll_completions (evts : List StreamEvent) (a : TrackStats) :
    (ingestAll a evts).completions
      = a.completions + (evts.filter (fun e => e.completed)).length := by
  induction evts generalizing a with
  | nil => simp [ingestAll]
  | cons e rest ih =>
    rw [ingestAll_cons, ih]
    by_cases hc : e.completed
    all_goals simp [TrackStats.ingest, hc]
    all_goals try omega

lemma ingestAll_listen_total (evts : List StreamEvent) (a : TrackStats) :
    (ingestAll a evts).listen_total
      = a.listen_total + (evts.map (fun e => e.listened_s)).sum := by
  induction evts generalizing a with
  | nil => simp [ingestAll]
  | cons e rest ih =>
    rw [ingestAll_cons, ih]
    simp [TrackStats.ingest]
    try omega

lemma ingestAll_user_set (evts : List StreamEvent) (a : TrackStats) :
    (ingestAll a evts).user_set
      = a.user_set ∪ (evts.map (fun e => e.user_id)).toFinset := by
  induction evts generalizing a with
  | nil => simp [ingestAll]
  | cons e rest ih =>
    rw [ingestAll_cons, ih]
    simp [TrackStats.ingest, Finset.union_insert, Finset.insert_union]

lemma ingestAll_platform_counts (evts : List StreamEvent) (a : TrackStats) :
    (ingestAll a evts).platform_counts
      = (evts.map (fun e => e.platform)).foldl bump a.platform_counts := by
  induction evts generalizing a with
  | nil => simp [ingestAll]
  | cons e rest ih =>
    rw [ingestAll_cons, ih]
    simp [TrackStats.ingest]

lemma ingestAll_region_counts (evts : List StreamEvent) (a : TrackStats) :
    (ingestAll a evts).region_counts
      = (evts.map (fun e => e.region)).foldl bump a.region_counts := by
  induction evts generalizing a with
  | nil => simp [ingestAll]
  | cons e rest ih =>
    rw [ingestAll_cons, ih]
    simp [TrackStats.ingest]

/-! ### Rounding bounds -/

lemma roundHalfEven_cases (q : ℚ) :
    roundHalfEven q = ⌊q⌋ ∨ roundHalfEven q = ⌊q⌋ + 1 := by
  unfold roundHalfEven
  split_ifs <;> simp

lemma roundHalfEven_nonneg (q : ℚ) (h : 0 ≤ q) : 0 ≤ roundHalfEven q := by
  have hf : 0 ≤ ⌊q⌋ := Int.floor_nonneg.2 h
  rcases roundHalfEven_cases q with hc | hc <;> omega

lemma half_le_fract_of_roundHalfEven_eq (q : ℚ)
    (hc : roundHalfEven q = ⌊q⌋ + 1) : 1 / 2 ≤ q - (⌊q⌋ : ℚ) := by
  unfold roundHalfEven at hc
  split_ifs at hc with h1 h2 h3
  · omega
  · exact le_of_lt h2
  · omega
  · linarith

lemma roundHalfEven_le (q : ℚ) (n : ℤ) (h : q ≤ (n : ℚ)) : roundHalfEven q ≤ n := by
  have hfl : ⌊q⌋ ≤ n := by
    have := Int.floor_le_floor h
    simpa using this
  rcases roundHalfEven_cases q with hc | hc
  · omega
  · -- in the `+ 1` branches the fractional part is at least 1/2, so q is not an integer
    have hfr : 1 / 2 ≤ q - (⌊q⌋ : ℚ) := half_le_fract_of_roundHalfEven_eq q hc
    have hlt : (⌊q⌋ : ℚ) < q := by linarith
    have hq : (⌊q⌋ : ℚ) < (n : ℚ) := lt_of_lt_of_le hlt h
    have hfn : ⌊q⌋ < n := by exact_mod_cast hq
    omega

/-! ### Tally representation: the bump-dict is the first-occurrence list
paired with occurrence counts -/

lemma countVal_append (v : String) (l1 l2 : List String) :
    countVal v (l1 ++ l2) = countVal v l1 + countVal v l2 := by
  induction l1 with
  | nil => simp [countVal]
  | cons x rest ih => simp [countVal, ih]; omega

lemma firstOccurrences_eq_foldl (l : List String) :
    firstOccurrences l = l.foldl occStep [] := rfl

lemma mem_occStep (acc : List String) (v x : String) :
    x ∈ occStep acc v ↔ x ∈ acc ∨ x = v := by
  unfold occStep
  by_cases hv : v ∈ acc
  · rw [if_pos hv]
    constructor
    · exact fun h => Or.inl h
    · rintro (h | rfl)
      · exact h
      · exact hv
  · rw [if_neg hv]
    simp

lemma mem_foldl_occStep (l : List String) (acc : List String) (x : String) :
    x ∈ l.foldl occStep acc ↔ x ∈ acc ∨ x ∈ l := by
  induction l generalizing acc with
  | nil => simp
  | cons v rest ih =>
    rw [List.foldl_cons, ih, mem_occStep]
    simp [List.mem_cons]
    tauto

lemma mem_firstOccurrences (l : List String) (x : String) :
    x ∈ firstOccurrences l ↔ x ∈ l := by
  rw [firstOccurrences_eq_foldl, mem_foldl_occStep]
  simp

lemma nodup_foldl_occStep (l : List String) (acc : List String) (h : acc.Nodup) :
    (l.foldl occStep acc).Nodup := by
  induction l generalizing acc with
  | nil => simpa
  | cons v rest ih =>
    rw [List.foldl_cons]
    apply ih
    unfold occStep
    by_cases hv : v ∈ acc
    · simpa [hv]
    · simp [hv, List.nodup_append, h]

lemma nodup_firstOccurrences (l : List String) : (firstOccurrences l).Nodup :=
  nodup_foldl_occStep l [] List.nodup_nil

lemma firstOccurrences_append_singleton (l : List String) (v : String) :
    firstOccurrences (l ++ [v])
      = if v ∈ firstOccurrences l then firstOccurrences l
        else firstOccurrences l ++ [v] := by
  rw [firstOccurrences_eq_foldl, firstOccurrences_eq_foldl, List.foldl_append]
  rfl

lemma bump_map_of_mem (ks : List String) (g : String → Nat) (v : String)
    (hnd : ks.Nodup) (hm : v ∈ ks) :
    bump (ks.map (fun k => (k, g k))) v
      = ks.map (fun k => (k, if k = v then g k + 1 else g k)) := by
  induction ks with
  | nil => simp at hm
  | cons k0 rest ih =>
    rw [List.map_cons, List.map_cons]
    by_cases hk : k0 = v
    · subst hk
      rw [List.nodup_cons] at hnd
      simp [bump]
      intro k hk
      have hkn : ¬ k = k0 := fun hkk => hnd.1 (hkk ▸ hk)
      simp [hkn]
    · rw [List.nodup_cons] at hnd
      have hm' : v ∈ rest := by
        rcases List.mem_cons.mp hm with h | h
        · exact absurd h.symm hk
        · exact h
      simp [bump, hk, ih hnd.2 hm']

lemma bump_map_of_notMem (ks : List String) (g : String → Nat) (v : String)
    (hm : v ∉ ks) :
    bump (ks.map (fun k => (k, g k))) v
      = ks.map (fun k => (k, g k)) ++ [(v, 1)] := by
  induction ks with
  | nil => simp [bump]
  | cons k0 rest ih =>
    have hk : ¬ k0 = v := fun h => hm (by simp [h])
    have hm' : v ∉ rest := fun h => hm (by simp [h])
    simp [bump, hk, ih hm']

lemma tally_append_singleton (l : List String) (v : String) :
    tally (l ++ [v]) = bump (tally l) v := by
  unfold tally
  rw [List.foldl_append]
  rfl

lemma countVal_eq_zero_of_notMem (v : String) (l : List String) (h : v ∉ l) :
    countVal v l = 0 := by
  induction l with
  | nil => rfl
  | cons x rest ih =>
    have hx : ¬ x = v := fun hxv => h (by simp [hxv])
    have hr : v ∉ rest := fun hm => h (by simp [hm])
    simp [countVal, hx, ih hr]

lemma tally_eq (l : List String) :
    tally l = (firstOccurrences l).map (fun k => (k, countVal k l)) := by
  induction l using List.reverseRecOn with
  | nil => simp [tally, firstOccurrences]
  | append_singleton l v ih =>
    rw [tally_append_singleton, ih, firstOccurrences_append_singleton]
    by_cases hv : v ∈ firstOccurrences l
    · rw [if_pos hv]
      rw [bump_map_of_mem _ _ _ (nodup_firstOccurrences l) hv]
      apply List.map_congr_left
      intro k _
      rw [countVal_append]
      by_cases hk : k = v
      · subst hk
        simp [countVal]
      · have hvk : ¬ v = k := fun h => hk h.symm
        simp [countVal, hk, hvk]
    · rw [if_neg hv]
      rw [bump_map_of_notMem _ _ _ hv]
      rw [List.map_append]
      have hvl : v ∉ l := fun h => hv ((mem_firstOccurrences l v).mpr h)
      congr 1
      · apply List.map_congr_left
        intro k hk
        have hkl : k ∈ l := (mem_firstOccurrences l k).mp hk
        have hvk : ¬ v = k := fun h => hvl (h ▸ hkl)
        rw [countVal_append]
        simp [countVal, hvk]
      · simp [countVal_append, countVal, countVal_eq_zero_of_notMem v l hvl]

/-! ### Python max over the tally dict is first-seen-wins selection -/

lemma maxKeyGo_map (f : String → Nat) (ks : List String) (bk : String) :
    maxKeyGo bk (f bk) (ks.map (fun k => (k, f k))) = pickGo f bk ks := by
  induction ks generalizing bk with
  | nil => rfl
  | cons k rest ih =>
    simp only [List.map_cons, maxKeyGo, pickGo]
    by_cases h : f bk < f k
    · rw [if_pos h, if_pos h, ih]
    · rw [if_neg h, if_neg h, ih]

lemma maxKey_map (f : String → Nat) (ks : List String) :
    maxKey (ks.map (fun k => (k, f k))) = pickFirstMax f ks := by
  cases ks with
  | nil => rfl
  | cons k rest =>
    simp only [List.map_cons, maxKey, pickFirstMax]
    exact maxKeyGo_map f rest k

lemma maxKey_tally (l : List String) : maxKey (tally l) = firstSeenMax l := by
  rw [tally_eq, maxKey_map]
  rfl

lemma ingestAll_fresh_top_platform (tid title : String) (evts : List StreamEvent) :
    (ingestAll (TrackStats.fresh tid title) evts).top_platform
      = firstSeenMax (evts.map (fun e => e.platform)) := by
  have hd := derivedOk_ingestAll evts _ (derivedOk_fresh tid title)
  have hp := ingestAll_platform_counts evts (TrackStats.fresh tid title)
  rw [hd.2.2.2.1, hp]
  exact maxKey_tally _

lemma ingestAll_fresh_top_region (tid title : String) (evts : List StreamEvent) :
    (ingestAll (TrackStats.fresh tid title) evts).top_region
      = firstSeenMax (evts.map (fun e => e.region)) := by
  have hd := derivedOk_ingestAll evts _ (derivedOk_fresh tid title)
  have hr := ingestAll_region_counts evts (TrackStats.fresh tid title)
  rw [hd.2.2.2.2, hr]
  exact maxKey_tally _

/-! ### Engine lemmas -/

lemma process_unknown (p : StreamProcessor) (now : ℚ) (e : StreamEvent)
    (h : lookupTrack p.stats e.track_id = none) :
    p.process now e = p := by
  unfold StreamProcessor.process
  rw [h]

lemma process_known (p : StreamProcessor) (now : ℚ) (e : StreamEvent) (s : TrackStats)
    (h : lookupTrack p.stats e.track_id = some s) :
    p.process now e =
      { p with
        stats := updateStats p.stats e.track_id e
        total_processed := p.total_processed + 1
        window := evictFrom (p.window ++ [now]) (now - StreamProcessor.WINDOW_SIZE) } := by
  unfold StreamProcessor.process
  rw [h]

lemma lookupTrack_eq_none_iff (l : List (String × TrackStats)) (tid : String) :
    lookupTrack l tid = none ↔ tid ∉ l.map Prod.fst := by
  induction l with
  | nil => simp [lookupTrack]
  | cons kv rest ih =>
    obtain ⟨k, s⟩ := kv
    rw [List.map_cons]
    by_cases hk : k = tid
    · subst hk
      constructor
      · intro h
        exact absurd h (by simp [lookupTrack])
      · intro h
        exact absurd (List.mem_cons_self _ _) h
    · have h1 : lookupTrack ((k, s) :: rest) tid = lookupTrack rest tid := by
        simp [lookupTrack, hk]
      rw [h1, ih]
      constructor
      · intro h hc
        rcases List.mem_cons.mp hc with hc' | hc'
        · exact hk hc'.symm
        · exact h hc'
      · intro h hc
        exact h (List.mem_cons.mpr (Or.inr hc))

lemma lookupTrack_isSome_of_mem (l : List (String × TrackStats)) (tid : String)
    (h : tid ∈ l.map Prod.fst) : ∃ s, lookupTrack l tid = some s := by
  cases ho : lookupTrack l tid with
  | none => exact absurd ((lookupTrack_eq_none_iff l tid).mp ho) (by simpa using h)
  | some s => exact ⟨s, rfl⟩

lemma updateStats_map_fst (l : List (String × TrackStats)) (tid : String) (e : StreamEvent) :
    (updateStats l tid e).map Prod.fst = l.map Prod.fst := by
  induction l with
  | nil => rfl
  | cons kv rest ih =>
    obtain ⟨k, s⟩ := kv
    by_cases hk : k = tid <;> simp [updateStats, hk, ih]

lemma updateStats_map_track_id (l : List (String × TrackStats)) (tid : String) (e : StreamEvent) :
    (updateStats l tid e).map (fun kv => kv.2.track_id)
      = l.map (fun kv => kv.2.track_id) := by
  induction l with
  | nil => rfl
  | cons kv rest ih =>
    obtain ⟨k, s⟩ := kv
    by_cases hk : k = tid <;> simp [updateStats, hk, ih, TrackStats.ingest]

lemma sum_updateStats (l : List (String × TrackStats)) (tid : String) (e : StreamEvent)
    (h : tid ∈ l.map Prod.fst) :
    ((updateStats l tid e).map (fun kv => kv.2.total_streams)).sum
      = (l.map (fun kv => kv.2.total_streams)).sum + 1 := by
  induction l with
  | nil => simp at h
  | cons kv rest ih =>
    obtain ⟨k, s⟩ := kv
    by_cases hk : k = tid
    · subst hk
      simp [updateStats, TrackStats.ingest]
      omega
    · have h' : tid ∈ rest.map Prod.fst := by
        rw [List.map_cons] at h
        rcases List.mem_cons.mp h with hh | hh
        · exact absurd hh.symm hk
        · exact hh
      simp [updateStats, hk, ih h']
      try omega

lemma process_batch_cons (p : StreamProcessor) (ne : ℚ × StreamEvent)
    (rest : List (ℚ × StreamEvent)) :
    p.process_batch (ne :: rest) = (p.process ne.1 ne.2).process_batch rest := rfl

lemma batch_invariant (evts : List (ℚ × StreamEvent)) (p : StreamProcessor) :
    (p.process_batch evts).stats.map Prod.fst = p.stats.map Prod.fst
    ∧ (p.process_batch evts).stats.map (fun kv => kv.2.track_id)
        = p.stats.map (fun kv => kv.2.track_id)
    ∧ sumStreams (p.process_batch evts)
        = sumStreams p + countKnown (p.stats.map Prod.fst) evts
    ∧ (p.process_batch evts).total_processed
        = p.total_processed + countKnown (p.stats.map Prod.fst) evts := by
  induction evts generalizing p with
  | nil => simp [StreamProcessor.process_batch, countKnown]
  | cons ne rest ih =>
    rw [process_batch_cons]
    by_cases hmem : ne.2.track_id ∈ p.stats.map Prod.fst
    · obtain ⟨s, hs⟩ := lookupTrack_isSome_of_mem _ _ hmem
      have hp := process_known p ne.1 ne.2 s hs
      have hck : countKnown (p.stats.map Prod.fst) (ne :: rest)
          = countKnown (p.stats.map Prod.fst) rest + 1 := by
        simp [countKnown, List.filter_cons, hmem]
        try omega
      obtain ⟨ih1, ih2, ih3, ih4⟩ := ih (p.process ne.1 ne.2)
      have hfst : (p.process ne.1 ne.2).stats.map Prod.fst = p.stats.map Prod.fst := by
        rw [hp]
        exact updateStats_map_fst _ _ _
      refine ⟨?_, ?_, ?_, ?_⟩
      · rw [ih1, hfst]
      · rw [ih2, hp]
        exact updateStats_map_track_id _ _ _
      · rw [ih3, hfst, hck]
        have hsum : sumStreams (p.process ne.1 ne.2) = sumStreams p + 1 := by
          rw [hp]
          exact sum_updateStats _ _ _ hmem
        omega
      · rw [ih4, hfst, hck]
        have ht : (p.process ne.1 ne.2).total_processed = p.total_processed + 1 := by
          rw [hp]
        omega
    · have hnone : lookupTrack p.stats ne.2.track_id = none :=
        (lookupTrack_eq_none_iff _ _).mpr hmem
      have hp := process_unknown p ne.1 ne.2 hnone
      have hck : countKnown (p.stats.map Prod.fst) (ne :: rest)
          = countKnown (p.stats.map Prod.fst) rest := by
        simp [countKnown, List.filter_cons, hmem]
      rw [hp, hck]
      exact ih p

lemma init_stats_fst : StreamProcessor.init.stats.map Prod.fst = catalogIds := by
  simp [StreamProcessor.init, catalogIds, List.map_map]

lemma init_stats_track_id :
    StreamProcessor.init.stats.map (fun kv => kv.2.track_id) = catalogIds := by
  simp [StreamProcessor.init, catalogIds, List.map_map]
  intro a _
  rfl

lemma sumStreams_init : sumStreams StreamProcessor.init = 0 := by decide

/-! ### Stability of the descending sort used by top_tracks -/

lemma filter_streams_orderedInsert (c : Nat) (a : TrackStats) (l : List TrackStats) :
    (List.orderedInsert streamsGE a l).filter (fun s => s.total_streams == c)
      = ((a :: l).filter (fun s => s.total_streams == c)) := by
  induction l with
  | nil => rfl
  | cons b l ih =>
    by_cases h : streamsGE a b
    · rw [List.orderedInsert, if_pos h]
    · rw [List.orderedInsert, if_neg h]
      have hab : a.total_streams < b.total_streams := Nat.lt_of_not_le h
      by_cases hpb : b.total_streams = c
      · by_cases hpa : a.total_streams = c
        · omega
        · simp [List.filter_cons, hpa, hpb, ih]
      · simp [List.filter_cons, hpb, ih]

lemma filter_streams_insertionSort (c : Nat) (l : List TrackStats) :
    (List.insertionSort streamsGE l).filter (fun s => s.total_streams == c)
      = l.filter (fun s => s.total_streams == c) := by
  induction l with
  | nil => rfl
  | cons a l ih =>
    rw [List.insertionSort, filter_streams_orderedInsert]
    simp [List.filter_cons, ih]

/-! ### Rounding-bound corollaries -/

lemma pyRound1_nonneg (q : ℚ) (h : 0 ≤ q) : 0 ≤ pyRound1 q := by
  unfold pyRound1
  have h1 : 0 ≤ roundHalfEven (q * 10) :=
    roundHalfEven_nonneg _ (by positivity)
  have h2 : (0:ℚ) ≤ (roundHalfEven (q * 10) : ℚ) := by exact_mod_cast h1
  positivity

lemma pyRound1_le_hundred (q : ℚ) (h : q ≤ 100) : pyRound1 q ≤ 100 := by
  unfold pyRound1
  have h1 : roundHalfEven (q * 10) ≤ (1000 : ℤ) := by
    apply roundHalfEven_le
    push_cast
    linarith
  have h2 : (roundHalfEven (q * 10) : ℚ) ≤ 1000 := by exact_mod_cast h1
  linarith

lemma frac_hundred_le (c t : Nat) (h : c ≤ t) : ((c:ℚ) / (t:ℚ)) * 100 ≤ 100 := by
  rcases Nat.eq_zero_or_pos t with ht | ht
  · have hc : c = 0 := by omega
    subst hc
    norm_num
  · have htq : (0:ℚ) < (t:ℚ) := by exact_mod_cast ht
    have h1 : (c:ℚ) / (t:ℚ) ≤ 1 := by
      rw [div_le_one htq]
      exact_mod_cast h
    linarith

lemma pyRound1_two_thirds : pyRound1 ((2:ℚ) / 3 * 100) = 667 / 10 := by
  have hfl : ⌊(2:ℚ) / 3 * 100 * 10⌋ = 666 := by
    rw [Int.floor_eq_iff]
    constructor <;> norm_num
  unfold pyRound1 roundHalfEven
  rw [hfl]
  norm_num

/-! ### Claim theorems -/

/-- C1 (counterexample): the claim says top_platform is the value whose
count first reached the eventual maximum, and that an incumbent is never
displaced on a tie.  On the platform sequence Spotify, Tidal, Tidal,
Spotify the code selects Spotify although Tidal reached the eventual
maximum first; and on Tidal, Spotify, Spotify, Tidal the incumbent
Spotify is displaced by Tidal although their counts are tied. -/
theorem C1_first_reach_max_counterexample :
    (ingestAll (TrackStats.fresh cid1 ctitle1)
        [platEvent pSpot, platEvent pTidal, platEvent pTidal, platEvent pSpot]).top_platform
      ≠ specFirstToReachMax
          (([platEvent pSpot, platEvent pTidal, platEvent pTidal, platEvent pSpot]).map
            (fun e => e.platform))
    ∧ (ingestAll (TrackStats.fresh cid1 ctitle1)
        [platEvent pTidal, platEvent pSpot, platEvent pSpot]).top_platform = pSpot
    ∧ (ingestAll (TrackStats.fresh cid1 ctitle1)
        [platEvent pTidal, platEvent pSpot, platEvent pSpot, platEvent pTidal]).top_platform
        = pTidal :=
  ⟨by decide, by decide, by decide⟩

/-- C1 (amended): after any event sequence, top_platform (resp.
top_region) is the categorical value with the maximal occurrence count,
ties broken in favour of the value whose FIRST OCCURRENCE is earliest in
the sequence (first-seen-wins, not first-to-reach-the-max; an incumbent
can be displaced on a tie by an earlier-first-seen value). -/
theorem C1_amended_first_seen_wins (tid title : String) (evts : List StreamEvent) :
    (ingestAll (TrackStats.fresh tid title) evts).top_platform
        = firstSeenMax (evts.map (fun e => e.platform))
    ∧ (ingestAll (TrackStats.fresh tid title) evts).top_region
        = firstSeenMax (evts.map (fun e => e.region)) :=
  ⟨ingestAll_fresh_top_platform tid title evts, ingestAll_fresh_top_region tid title evts⟩

/-- C2 (code bug): `throughput` performs no eviction and reads no clock,
so after one event at time 0 the window entry is never evicted by a later
read; the value stays 1/60 instead of dropping to 0 once processing time
passes the 60-unit horizon with no further events. -/
theorem C2_throughput_stale_after_idle :
    (StreamProcessor.init.process 0 evStaleWin).window = [0]
    ∧ (StreamProcessor.init.process 0 evStaleWin).throughput = 1 / 60
    ∧ (StreamProcessor.init.process 0 evStaleWin).throughput ≠ 0 := by
  have hlk : lookupTrack StreamProcessor.init.stats evStaleWin.track_id
      = some (TrackStats.fresh cid1 ctitle1) := by decide
  have hw : (StreamProcessor.init.process 0 evStaleWin).window = [0] := by
    rw [process_known _ _ _ _ hlk]
    show evictFrom (StreamProcessor.init.window ++ [0]) (0 - StreamProcessor.WINDOW_SIZE) = [0]
    norm_num [evictFrom, StreamProcessor.WINDOW_SIZE, StreamProcessor.init]
  refine ⟨hw, ?_, ?_⟩
  · unfold StreamProcessor.throughput
    rw [hw]
    norm_num [StreamProcessor.WINDOW_SIZE]
  · unfold StreamProcessor.throughput
    rw [hw]
    norm_num [StreamProcessor.WINDOW_SIZE]

/-- C3: in every state reachable from the fresh engine, the sum of
total_streams over all aggregates equals total_processed, which equals
the number of processed events whose track_id is a catalog key. -/
theorem C3_count_conservation (evts : List (ℚ × StreamEvent)) :
    sumStreams (runEvents evts) = (runEvents evts).total_processed
    ∧ (runEvents evts).total_processed = countKnown catalogIds evts := by
  obtain ⟨h1, h2, h3, h4⟩ := batch_invariant evts StreamProcessor.init
  have hinit_t : StreamProcessor.init.total_processed = 0 := rfl
  unfold runEvents
  constructor
  · rw [h3, h4, sumStreams_init, init_stats_fst, hinit_t]
  · rw [h4, init_stats_fst, hinit_t]
    omega

/-- C4: processing an event whose track_id is not a catalog key leaves
the whole engine state (every aggregate, total_processed, window,
anomalies) unchanged, with no error. -/
theorem C4_unknown_item_noop (p : StreamProcessor) (now : ℚ) (e : StreamEvent)
    (h : lookupTrack p.stats e.track_id = none) :
    p.process now e = p :=
  process_unknown p now e h

theorem C4_unknown_item_noop_witness :
    lookupTrack StreamProcessor.init.stats evUnknownTrack.track_id = none
    ∧ StreamProcessor.init.process 5 evUnknownTrack = StreamProcessor.init :=
  ⟨by decide, C4_unknown_item_noop StreamProcessor.init 5 evUnknownTrack (by decide)⟩

/-- C5: top_tracks n is the n-prefix of the stable descending sort of
the aggregates by total_streams: the sorted list is sorted, a permutation
of the stats values, its equal-count items keep their relative order in
the stats list, and the stats list stays in catalog declaration order in
every reachable state. -/
theorem C5_top_tracks_sorted_stable (evts : List (ℚ × StreamEvent)) (n c : Nat) :
    (runEvents evts).top_tracks n = (sortedStats (runEvents evts)).take n
    ∧ List.Sorted streamsGE (sortedStats (runEvents evts))
    ∧ List.Perm (sortedStats (runEvents evts)) ((runEvents evts).stats.map Prod.snd)
    ∧ (sortedStats (runEvents evts)).filter (fun s => s.total_streams == c)
        = ((runEvents evts).stats.map Prod.snd).filter (fun s => s.total_streams == c)
    ∧ (runEvents evts).stats.map (fun kv => kv.2.track_id) = catalogIds := by
  refine ⟨rfl, List.sorted_insertionSort _ _, List.perm_insertionSort _ _,
    filter_streams_insertionSort _ _, ?_⟩
  unfold runEvents
  rw [(batch_invariant evts StreamProcessor.init).2.1, init_stats_track_id]

/-- C6: after every ingest, completion_pct equals completions divided by
total_streams times 100 rounded to one decimal, lies in [0, 100], and
the 2-completions-out-of-3 scenario yields 66.7. -/
theorem C6_completion_rate (tid title : String) (evts : List StreamEvent) :
    (ingestAll (TrackStats.fresh tid title) evts).completion_pct
        = pyRound1 (((ingestAll (TrackStats.fresh tid title) evts).completions : ℚ)
            / ((ingestAll (TrackStats.fresh tid title) evts).total_streams : ℚ) * 100)
    ∧ (ingestAll (TrackStats.fresh tid title) evts).completions
        = (evts.filter (fun e => e.completed)).length
    ∧ 0 ≤ (ingestAll (TrackStats.fresh tid title) evts).completion_pct
    ∧ (ingestAll (TrackStats.fresh tid title) evts).completion_pct ≤ 100
    ∧ (ingestAll (TrackStats.fresh cid1 ctitle1) scenarioEvents).completion_pct = 667 / 10 := by
  have hd := (derivedOk_ingestAll evts _ (derivedOk_fresh tid title)).1
  have hc := ingestAll_completions evts (TrackStats.fresh tid title)
  have ht := ingestAll_total evts (TrackStats.fresh tid title)
  have hle : (ingestAll (TrackStats.fresh tid title) evts).completions
      ≤ (ingestAll (TrackStats.fresh tid title) evts).total_streams := by
    rw [hc, ht]
    simp [TrackStats.fresh]
    have := List.length_filter_le (fun e => e.completed) evts
    omega
  refine ⟨hd, ?_, ?_, ?_, ?_⟩
  · rw [hc]
    simp [TrackStats.fresh]
  · rw [hd]
    exact pyRound1_nonneg _ (by positivity)
  · rw [hd]
    exact pyRound1_le_hundred _ (frac_hundred_le _ _ hle)
  · have hd2 := (derivedOk_ingestAll scenarioEvents _ (derivedOk_fresh cid1 ctitle1)).1
    have hcc : (ingestAll (TrackStats.fresh cid1 ctitle1) scenarioEvents).completions = 2 := by
      decide
    have htt : (ingestAll (TrackStats.fresh cid1 ctitle1) scenarioEvents).total_streams = 3 := by
      decide
    rw [hd2, hcc, htt]
    push_cast
    exact pyRound1_two_thirds

/-- C7: after every ingest, avg_listen_s equals the cumulative listened
seconds divided by total_streams, the cumulative sum is the sum over the
ingested events, and the average is nonnegative. -/
theorem C7_avg_engagement (tid title : String) (evts : List StreamEvent) :
    (ingestAll (TrackStats.fresh tid title) evts).avg_listen_s
        = ((ingestAll (TrackStats.fresh tid title) evts).listen_total : ℚ)
            / ((ingestAll (TrackStats.fresh tid title) evts).total_streams : ℚ)
    ∧ (ingestAll (TrackStats.fresh tid title) evts).listen_total
        = (evts.map (fun e => e.listened_s)).sum
    ∧ (ingestAll (TrackStats.fresh tid title) evts).total_streams = evts.length
    ∧ 0 ≤ (ingestAll (TrackStats.fresh tid title) evts).avg_listen_s := by
  have hd := (derivedOk_ingestAll evts _ (derivedOk_fresh tid title)).2.1
  have hl := ingestAll_listen_total evts (TrackStats.fresh tid title)
  have ht := ingestAll_total evts (TrackStats.fresh tid title)
  refine ⟨hd, ?_, ?_, ?_⟩
  · rw [hl]
    simp [TrackStats.fresh]
  · rw [ht]
    simp [TrackStats.fresh]
  · rw [hd]
    positivity

/-- C8: unique_users is the exact number of distinct user_ids among the
ingested events, and never exceeds total_streams. -/
theorem C8_distinct_actors (tid title : String) (evts : List StreamEvent) :
    (ingestAll (TrackStats.fresh tid title) evts).unique_users
        = ((evts.map (fun e => e.user_id)).toFinset).card
    ∧ (ingestAll (TrackStats.fresh tid title) evts).unique_users
        ≤ (ingestAll (TrackStats.fresh tid title) evts).total_streams := by
  have hd := (derivedOk_ingestAll evts _ (derivedOk_fresh tid title)).2.2.1
  have hus := ingestAll_user_set evts (TrackStats.fresh tid title)
  have ht := ingestAll_total evts (TrackStats.fresh tid title)
  have hcard : (ingestAll (TrackStats.fresh tid title) evts).unique_users
      = ((evts.map (fun e => e.user_id)).toFinset).card := by
    rw [hd, hus]
    simp [TrackStats.fresh]
  refine ⟨hcard, ?_⟩
  rw [hcard, ht]
  simp [TrackStats.fresh]
  have h1 := List.toFinset_card_le (evts.map (fun e => e.user_id))
  have h2 : (evts.map (fun e => e.user_id)).length = evts.length := List.length_map _ _
  omega

/-- C9: process_batch over a finite event sequence equals the sequential
application of process to each event in order, from every engine state. -/
theorem C9_process_batch_eq_seq (p : StreamProcessor) (evts : List (ℚ × StreamEvent)) :
    p.process_batch evts = seqProcess p evts := by
  induction evts generalizing p with
  | nil => rfl
  | cons ne rest ih =>
    rw [process_batch_cons, ih]
    rfl

/-- C10: on the freshly constructed engine every aggregate reads
total_streams 0, unique_users 0, completion_pct 0, avg_listen_s 0 and
empty top_platform / top_region, and each accessor is a total stored
field, so no division or error occurs before any event is processed. -/
theorem C10_initial_aggregates :
    (StreamProcessor.init.stats.all (fun kv =>
      kv.2.total_streams == 0 && kv.2.unique_users == 0 && kv.2.completion_pct == 0
      && kv.2.avg_listen_s == 0 && kv.2.top_platform == "" && kv.2.top_region == "")) = true := by
  decide
